import Mathlib

/-!
Verification of the Equilibrium AMM pricing and accounting engine.

The definitions below are a shallow embedding of the numeric core of the
program: the math module (dynamic fee, StableSwap invariant solver, swap
output calculator, weight calculator, position bounds) and the numeric
logic embedded in the deposit, withdraw and swap instruction handlers.

Machine integers are modelled as `Nat`; every `u64` operation that can
abort (overflow, underflow, division by zero — Rust panics, which abort
the whole transaction) is modelled as an `Option Nat`-valued checked
operation. Rust `u128` intermediate arithmetic, which cannot overflow on
`u64` inputs, is modelled with plain `Nat` arithmetic; the final `as u64`
cast is a truncating cast, modelled by `% 2 ^ 64`. Rust
`saturating_sub`/`saturating_add` are modelled by truncated `Nat`
subtraction and by clamping at `2 ^ 64 - 1`.
-/

namespace Equilibrium

/-- The number of values of a `u64`: `2 ^ 64`. -/
def W : Nat := 2 ^ 64

/-- Checked result of a `u64` arithmetic expression: the value when it fits
in a `u64`, `none` (panic / aborted transaction) otherwise. -/
def chk (x : Nat) : Option Nat := if x < W then some x else none

/-- Checked `u64` addition. -/
def cadd (a b : Nat) : Option Nat := chk (a + b)

/-- Checked `u64` multiplication. -/
def cmul (a b : Nat) : Option Nat := chk (a * b)

/-- Checked `u64` subtraction: `none` on underflow. -/
def csub (a b : Nat) : Option Nat := if b ≤ a then some (a - b) else none

/-- Checked `u64` division: `none` on a zero divisor. -/
def cdiv (a b : Nat) : Option Nat := if b = 0 then none else some (a / b)

/-- `BASE_FEE` from `state/math.rs`. -/
def BASE_FEE : Nat := 1

/-- `MAX_FEE` from `state/math.rs`. -/
def MAX_FEE : Nat := 5

/-- `FEE_MULTIPLIER` from `state/math.rs`. -/
def FEE_MULTIPLIER : Nat := 1

/-- `FEE_DENOMINATOR` from `state/math.rs`. -/
def FEE_DENOMINATOR : Nat := 1000

/-- The accumulation loop of `calculate_dynamic_fee`: fold the absolute
per-asset deviation `|current - target|` over the zipped weight lists into
the accumulator with checked addition (`total_deviation += deviation`). -/
def sum_deviation : List Nat → List Nat → Nat → Option Nat
  | [], _, acc => some acc
  | _ :: _, [], acc => some acc
  | c :: cs, t :: ts, acc =>
    match cadd acc (if c > t then c - t else t - c) with
    | none => none
    | some acc' => sum_deviation cs ts acc'

/-- `calculate_dynamic_fee` from `state/math.rs`:
`fee = min (BASE_FEE + (total_deviation / 100) * FEE_MULTIPLIER / 10) MAX_FEE`. -/
def calculate_dynamic_fee (current_weights target_weights : List Nat) : Option Nat :=
  match sum_deviation current_weights target_weights 0 with
  | none => none
  | some total =>
    -- deviation_percentage = total / 100
    match cmul (total / 100) FEE_MULTIPLIER with
    | none => none
    | some m =>
      match cadd BASE_FEE (m / 10) with
      | none => none
      | some fee => some (min fee MAX_FEE)

/-- The mathematical total absolute deviation between two weight lists
(no overflow), used to state properties of `calculate_dynamic_fee`. -/
def total_dev : List Nat → List Nat → Nat
  | [], _ => 0
  | _ :: _, [] => 0
  | c :: cs, t :: ts => (if c > t then c - t else t - c) + total_dev cs ts

/-- The fee as a pure function of the total deviation. -/
def fee_of (total : Nat) : Nat := min (BASE_FEE + total / 100 * FEE_MULTIPLIER / 10) MAX_FEE

/-- The scan loop of `calculate_invariant`: walk the amounts, breaking at
the first zero (`has_zero`), accumulating the checked sum and the checked
(unused but still computed, hence still able to overflow) product.
Returns `(has_zero, sum, product)`. -/
def accum_reserves : List Nat → Nat → Nat → Option (Bool × Nat × Nat)
  | [], s, p => some (false, s, p)
  | a :: rest, s, p =>
    if a = 0 then some (true, s, p)
    else
      match cadd s a with
      | none => none
      | some s' =>
        match cmul p a with
        | none => none
        | some p' => accum_reserves rest s' p'

/-- The inner product loop of one Newton iteration:
`d_product = d_product * d / (amount * n)` folded over the amounts,
with each `u64` operation checked. -/
def d_product_fold (n d : Nat) : List Nat → Nat → Option Nat
  | [], acc => some acc
  | a :: rest, acc =>
    match cmul acc d with
    | none => none
    | some t =>
      match cmul a n with
      | none => none
      | some m =>
        match cdiv t m with
        | none => none
        | some acc' => d_product_fold n d rest acc'

/-- One Newton iteration of `calculate_invariant` as the CODE performs it:
the product `d_product` is computed (its overflow aborts) but the update
uses `d_p = d`, the pre-fold value:
`d = (ann * sum + d_p * n) * d / ((ann - 1) * d + (n + 1) * d_p)`. -/
def newton_step (amounts : List Nat) (n ann s d : Nat) : Option Nat :=
  -- the code's `let d_p = d`: the update below consumes `d` itself
  match d_product_fold n d amounts d with
  | none => none
  | some _d_product =>
    match cmul ann s with
    | none => none
    | some t1 =>
      match cmul d n with
      | none => none
      | some t2 =>
        match cadd t1 t2 with
        | none => none
        | some num1 =>
          match cmul num1 d with
          | none => none
          | some num =>
            match csub ann 1 with
            | none => none
            | some am1 =>
              match cmul am1 d with
              | none => none
              | some t3 =>
                match cadd n 1 with
                | none => none
                | some np1 =>
                  match cmul np1 d with
                  | none => none
                  | some t4 =>
                    match cadd t3 t4 with
                    | none => none
                    | some den => cdiv num den

/-- The `for _ in 0..255` Newton loop of `calculate_invariant`: iterate
`newton_step`, breaking (and returning the freshly assigned value) when
`|d_next - d| ≤ 1`; after the fuel runs out, return the last value. -/
def newton_loop (amounts : List Nat) (n ann s : Nat) : Nat → Nat → Option Nat
  | 0, d => some d
  | fuel + 1, d =>
    match newton_step amounts n ann s d with
    | none => none
    | some dnew =>
      if dnew > d then
        if dnew - d ≤ 1 then some dnew else newton_loop amounts n ann s fuel dnew
      else
        if d - dnew ≤ 1 then some dnew else newton_loop amounts n ann s fuel dnew

/-- `calculate_invariant` from `state/math.rs`: reject an empty list, scan
for zero amounts while accumulating sum and product, reject `has_zero` or
zero sum, compute `ann = amplification * n^n` (checked `pow` then checked
multiplication), then run the 255-step Newton loop starting at `d = sum`. -/
def calculate_invariant (amounts : List Nat) (amplification : Nat) : Option Nat :=
  if amounts.isEmpty then none
  else
    let n := amounts.length
    match accum_reserves amounts 0 1 with
    | none => none
    | some (has_zero, s, _product) =>
      if has_zero || s = 0 then none
      else
        match chk (n ^ n) with
        | none => none
        | some nn =>
          match cmul amplification nn with
          | none => none
          | some ann => newton_loop amounts n ann s 255 s

/-- One Newton iteration as the SPECIFICATION describes it (§4.3): the
folded product `D_P` is the value used in the update formula
`D_next = (Ann * sum + D_P * n) * D / ((Ann - 1) * D + (n + 1) * D_P)`.
This is the comparison point for the refinement claim about the solver;
the code's `newton_step` instead feeds the pre-fold `d_p = d` into the
update. -/
def newton_step_spec (amounts : List Nat) (n ann s d : Nat) : Option Nat :=
  match d_product_fold n d amounts d with
  | none => none
  | some d_p =>
    match cmul ann s with
    | none => none
    | some t1 =>
      match cmul d_p n with
      | none => none
      | some t2 =>
        match cadd t1 t2 with
        | none => none
        | some num1 =>
          match cmul num1 d with
          | none => none
          | some num =>
            match csub ann 1 with
            | none => none
            | some am1 =>
              match cmul am1 d with
              | none => none
              | some t3 =>
                match cadd n 1 with
                | none => none
                | some np1 =>
                  match cmul np1 d_p with
                  | none => none
                  | some t4 =>
                    match cadd t3 t4 with
                    | none => none
                    | some den => cdiv num den

/-- The Newton loop built on the specification's iteration. -/
def newton_loop_spec (amounts : List Nat) (n ann s : Nat) : Nat → Nat → Option Nat
  | 0, d => some d
  | fuel + 1, d =>
    match newton_step_spec amounts n ann s d with
    | none => none
    | some dnew =>
      if dnew > d then
        if dnew - d ≤ 1 then some dnew else newton_loop_spec amounts n ann s fuel dnew
      else
        if d - dnew ≤ 1 then some dnew else newton_loop_spec amounts n ann s fuel dnew

/-- The invariant solver as the specification describes it: identical to
`calculate_invariant` except that the Newton update consumes the folded
product `D_P`. -/
def calculate_invariant_spec (amounts : List Nat) (amplification : Nat) : Option Nat :=
  if amounts.isEmpty then none
  else
    let n := amounts.length
    match accum_reserves amounts 0 1 with
    | none => none
    | some (has_zero, s, _product) =>
      if has_zero || s = 0 then none
      else
        match chk (n ^ n) with
        | none => none
        | some nn =>
          match cmul amplification nn with
          | none => none
          | some ann => newton_loop_spec amounts n ann s 255 s

/-- Helper for `fsqrt`: the largest `j ≤ k` with `j * j ≤ x`. -/
def fsqrt_go (x : Nat) : Nat → Nat
  | 0 => 0
  | k + 1 => if (k + 1) * (k + 1) ≤ x then k + 1 else fsqrt_go x k

/-- Models `(discriminant as f64).sqrt() as u64` from
`calculate_output_amount`: the integer square root (largest `j` with
`j * j ≤ x`). For the small arguments arising in the concrete evaluations
of this development the `f64` conversion and square root are exact and the
cast truncates, so the `f64` round trip coincides with the integer square
root. -/
def fsqrt (x : Nat) : Nat := fsqrt_go x x

/-- `calculate_output_amount` from `state/math.rs`: reject a zero reserve,
compute the invariant of the two traded reserves, apply the fee to the
input, form the new input reserve, solve the n=2 quadratic for the new
output reserve (`a = 1`), and return `y_reserve - new_y_reserve` (checked
subtraction: a would-be-negative output aborts). -/
def calculate_output_amount (x_amount x_reserve y_reserve fee amplification : Nat) :
    Option Nat :=
  if x_reserve = 0 || y_reserve = 0 then none
  else
    match calculate_invariant [x_reserve, y_reserve] amplification with
    | none => none
    | some d =>
      match cmul x_amount fee with
      | none => none
      | some fa =>
        -- fee_amount = fa / FEE_DENOMINATOR
        match csub x_amount (fa / FEE_DENOMINATOR) with
        | none => none
        | some x_amount_after_fee =>
          match cadd x_reserve x_amount_after_fee with
          | none => none
          | some new_x_reserve =>
            match cmul amplification 4 with
            | none => none
            | some ann =>
              -- d.pow(3): checked repeated multiplication
              match cmul d d with
              | none => none
              | some d2 =>
                match cmul d2 d with
                | none => none
                | some d3 =>
                  match cmul 4 ann with
                  | none => none
                  | some t =>
                    match cmul t new_x_reserve with
                    | none => none
                    | some t2 =>
                      match cdiv d3 t2 with
                      | none => none
                      | some c_positive =>
                        match cmul ann d with
                        | none => none
                        | some bn =>
                          match cmul ann new_x_reserve with
                          | none => none
                          | some bd =>
                            match cdiv bn bd with
                            | none => none
                            | some b =>
                              match cmul b b with
                              | none => none
                              | some bb =>
                                -- 4 * a * c_positive with a = 1
                                match cmul 4 c_positive with
                                | none => none
                                | some fourc =>
                                  match cadd bb fourc with
                                  | none => none
                                  | some discriminant =>
                                    match csub b (fsqrt discriminant) with
                                    | none => none
                                    | some bs =>
                                      -- new_y_reserve = (b - sqrt) / (2 * a), a = 1
                                      csub y_reserve (bs / 2)

/-- Checked sum `iter().sum::<u64>()`: fold checked addition over the list. -/
def csum : List Nat → Nat → Option Nat
  | [], acc => some acc
  | a :: rest, acc =>
    match cadd acc a with
    | none => none
    | some acc' => csum rest acc'

/-- `calculate_weights` from `state/math.rs`: all-zero weights when the
total reserve is zero, otherwise `reserve * 10000 / total` for each
reserve (checked multiplication). -/
def calculate_weights (reserves : List Nat) : Option (List Nat) :=
  match csum reserves 0 with
  | none => none
  | some total =>
    if total = 0 then some (List.replicate reserves.length 0)
    else reserves.mapM (fun r =>
      match cmul r 10000 with
      | none => none
      | some t => some (t / total))

/-- `calculate_position_bounds` from `state/math.rs`:
`half_range = concentration * 5` (checked), `min_price` by saturating
subtraction, `max_price = center_price + half_range` (checked addition). -/
def calculate_position_bounds (center_price concentration : Nat) : Option (Nat × Nat) :=
  match cmul concentration 5 with
  | none => none
  | some half_range =>
    match cadd center_price half_range with
    | none => none
    | some max_price => some (center_price - half_range, max_price)

/-- The `UserPosition` account from `state/user.rs` (public keys modelled
as `Nat`, timestamps as `Int`). -/
structure UserPosition where
  owner : Nat
  pool : Nat
  lp_amount : Nat
  min_price : Nat
  max_price : Nat
  is_active : Bool
  created_at : Int
  last_update : Int
  deriving Repr, DecidableEq

/-- The position update performed by the deposit handler
(`instructions/deposit.rs`, the block after minting):
`lp_amount += lp` (checked addition),
`min_price = concentration.saturating_sub(1000)`,
`max_price = concentration.saturating_add(1000)`,
`is_active = true`, `last_update = now`. -/
def deposit_update_position (pos : UserPosition) (lp_amount concentration : Nat)
    (now : Int) : Option UserPosition :=
  match cadd pos.lp_amount lp_amount with
  | none => none
  | some lp' =>
    some { pos with
      lp_amount := lp'
      min_price := concentration - 1000
      max_price := min (concentration + 1000) (W - 1)
      is_active := true
      last_update := now }

/-- The position update performed by the withdraw handler
(`instructions/withdraw.rs`): `lp_amount` decreases by saturating
subtraction, and the position is marked inactive exactly when the new
`lp_amount` is zero (otherwise `is_active` is left unchanged). -/
def withdraw_update_position (pos : UserPosition) (lp_amount : Nat)
    (now : Int) : UserPosition :=
  let lp' := pos.lp_amount - lp_amount
  { pos with
    lp_amount := lp'
    last_update := now
    is_active := if lp' = 0 then false else pos.is_active }

/-- The LP-minting computation of the deposit handler
(`instructions/deposit.rs`): if the checked sum of the pre-transfer
reserves is zero, mint the checked sum of the deposit amounts; otherwise
mint `lp_supply * (new_d - old_d) / old_d` computed in `u128` (no
overflow) with a checked `u64` subtraction of the invariants and a
truncating `as u64` cast of the quotient. -/
def compute_lp_amount (old_reserves new_reserves amounts : List Nat)
    (lp_supply amplification : Nat) : Option Nat :=
  match csum old_reserves 0 with
  | none => none
  | some total_old =>
    if total_old = 0 then csum amounts 0
    else
      match calculate_invariant old_reserves amplification with
      | none => none
      | some old_d =>
        match calculate_invariant new_reserves amplification with
        | none => none
        | some new_d =>
          match csub new_d old_d with
          | none => none
          | some diff =>
            if old_d = 0 then none  -- u128 division by zero panics
            else some (lp_supply * diff / old_d % W)

/-- The per-asset loop of `calculate_withdrawal_amounts`
(`instructions/withdraw.rs`): `amount = reserve * ratio / 10000` in `u128`
then cast to `u64` (truncating), failing when `amount < min_amounts[i]`
for an index covered by `min_amounts`. -/
def withdraw_amounts_go (ratio : Nat) (min_amounts : List Nat) :
    List Nat → Nat → Option (List Nat)
  | [], _ => some []
  | r :: rest, i =>
    -- amount = reserve * ratio / 10000 (u128), cast to u64
    if i < min_amounts.length ∧ r * ratio / 10000 % W < min_amounts.getD i 0 then none
    else
      match withdraw_amounts_go ratio min_amounts rest (i + 1) with
      | none => none
      | some tail => some (r * ratio / 10000 % W :: tail)

/-- `calculate_withdrawal_amounts` from `instructions/withdraw.rs`:
`withdraw_ratio = lp_amount * 10000 / total_lp_supply` in `u128` (a zero
supply panics with division by zero), then the per-asset loop. -/
def calculate_withdrawal_amounts (reserves : List Nat)
    (lp_amount total_lp_supply : Nat) (min_amounts : List Nat) : Option (List Nat) :=
  if total_lp_supply = 0 then none
  else withdraw_amounts_go (lp_amount * 10000 / total_lp_supply) min_amounts reserves 0

/-- The mint-index lookup of the swap handler (`instructions/swap.rs`):
`token_mints.iter().position(|mint| mint == key)` — the index of the first
occurrence, `none` meaning the handler fails with `InvalidTokenMint`. -/
def find_mint_index (token_mints : List Nat) (m : Nat) : Option Nat :=
  match token_mints with
  | [] => none
  | x :: rest => if x = m then some 0 else (find_mint_index rest m).map (· + 1)

/-- The mint-resolution stage of the swap handler: both lookups must
succeed; a `none` is exactly an `InvalidTokenMint` failure. -/
def swap_resolve (token_mints : List Nat) (mint_in mint_out : Nat) :
    Option (Nat × Nat) :=
  match find_mint_index token_mints mint_in with
  | none => none
  | some i =>
    match find_mint_index token_mints mint_out with
    | none => none
    | some j => some (i, j)

/-- The numeric pipeline of the swap handler (`instructions/swap.rs`):
resolve both mint indices, read the two reserves, compute current weights
and the dynamic fee, compute the output amount, enforce the slippage
bound, and apply the reserve updates
(`reserves[in] += amount_in`, checked; `reserves[out]` saturating-sub,
performed sequentially on the updated vector). Returns
`(token_in_idx, token_out_idx, amount_out, updated_reserves)`. -/
def swap_compute (token_mints reserves target_weights : List Nat)
    (amplification amount_in min_amount_out mint_in mint_out : Nat) :
    Option (Nat × Nat × Nat × List Nat) :=
  match swap_resolve token_mints mint_in mint_out with
  | none => none
  | some (token_in_idx, token_out_idx) =>
    match reserves[token_in_idx]? with
    | none => none
    | some in_reserve =>
      match reserves[token_out_idx]? with
      | none => none
      | some out_reserve =>
        match calculate_weights reserves with
        | none => none
        | some current_weights =>
          match calculate_dynamic_fee current_weights target_weights with
          | none => none
          | some fee =>
            match calculate_output_amount amount_in in_reserve out_reserve fee
                amplification with
            | none => none
            | some amount_out =>
              if amount_out < min_amount_out then none
              else
                match cadd in_reserve amount_in with
                | none => none
                | some in_after =>
                  let r1 := reserves.set token_in_idx in_after
                  match r1[token_out_idx]? with
                  | none => none
                  | some v_out =>
                    some (token_in_idx, token_out_idx, amount_out,
                      r1.set token_out_idx (v_out - amount_out))

/-! ### Basic specifications of the checked operations -/

theorem chk_some {x y : Nat} : chk x = some y ↔ x < W ∧ y = x := by
  unfold chk
  split <;> simp_all [eq_comm]

theorem cadd_some {a b y : Nat} : cadd a b = some y ↔ a + b < W ∧ y = a + b :=
  chk_some

theorem cmul_some {a b y : Nat} : cmul a b = some y ↔ a * b < W ∧ y = a * b :=
  chk_some

theorem csub_some {a b y : Nat} : csub a b = some y ↔ b ≤ a ∧ y = a - b := by
  unfold csub
  split <;> simp_all [eq_comm]

theorem cdiv_some {a b y : Nat} : cdiv a b = some y ↔ b ≠ 0 ∧ y = a / b := by
  unfold cdiv
  split <;> simp_all [eq_comm]

/-! ### Invariant solver: failure on empty or zero reserves (C4) -/

theorem accum_reserves_of_mem_zero :
    ∀ (l : List Nat), 0 ∈ l → ∀ s p,
      accum_reserves l s p = none ∨
      ∃ s' p', accum_reserves l s p = some (true, s', p') := by
  intro l hl
  induction l with
  | nil => cases hl
  | cons a rest ih =>
    intro s p
    by_cases ha : a = 0
    · right
      exact ⟨s, p, by simp [accum_reserves, ha]⟩
    · have hrest : 0 ∈ rest := by
        cases hl with
        | head => exact absurd rfl ha
        | tail _ h => exact h
      unfold accum_reserves
      rw [if_neg ha]
      cases hadd : cadd s a with
      | none => exact Or.inl rfl
      | some s' =>
        cases hmul : cmul p a with
        | none => exact Or.inl rfl
        | some p' => exact ih hrest s' p'

/-- Claim C4: for every reserve list that is empty or contains a zero
reserve, the invariant computation returns no D (the guard phase rejects
it before any division is reached). -/
theorem c4_invariant_fails_on_zero (amounts : List Nat) (amplification : Nat)
    (h : amounts = [] ∨ 0 ∈ amounts) :
    calculate_invariant amounts amplification = none := by
  rcases h with h | h
  · subst h; rfl
  · unfold calculate_invariant
    split
    · rfl
    · rcases accum_reserves_of_mem_zero amounts h 0 1 with h2 | ⟨s', p', h2⟩
      · rw [h2]
      · rw [h2]
        simp

/-- Witness for C4 at the spec's concrete scenario: reserves
`[3000, 0, 0]` make the solver fail. -/
theorem c4_invariant_fails_on_zero_witness :
    (([3000, 0, 0] : List Nat) = [] ∨ 0 ∈ ([3000, 0, 0] : List Nat)) ∧
    calculate_invariant [3000, 0, 0] 100 = none :=
  ⟨by simp, c4_invariant_fails_on_zero [3000, 0, 0] 100 (by simp)⟩

/-! ### Checked sums (deposit bootstrap, C7) -/

theorem csum_eq_some :
    ∀ (l : List Nat) (acc x : Nat), csum l acc = some x → x = acc + l.sum := by
  intro l
  induction l with
  | nil =>
    intro acc x h
    simp [csum] at h
    simp [h]
  | cons a rest ih =>
    intro acc x h
    unfold csum at h
    cases hadd : cadd acc a with
    | none => rw [hadd] at h; cases h
    | some acc' =>
      rw [hadd] at h
      obtain ⟨-, hacc'⟩ := cadd_some.mp hadd
      have := ih acc' x h
      subst hacc'
      simp [this]
      omega

theorem csum_of_sum_zero :
    ∀ (l : List Nat), l.sum = 0 → csum l 0 = some 0 := by
  intro l
  induction l with
  | nil => intro _; rfl
  | cons a rest ih =>
    intro h
    obtain ⟨ha0, hr0⟩ : a = 0 ∧ rest.sum = 0 := by
      simp at h
      omega
    subst ha0
    unfold csum
    have : cadd 0 0 = some 0 := cadd_some.mpr ⟨by norm_num [W], rfl⟩
    rw [this]
    exact ih hr0

/-- Claim C7: a deposit into a pool whose pre-transfer reserves sum to
zero mints exactly the sum of the deposit amounts. -/
theorem c7_bootstrap_lp (old_reserves new_reserves amounts : List Nat)
    (lp_supply amplification lp : Nat) (h0 : old_reserves.sum = 0)
    (h : compute_lp_amount old_reserves new_reserves amounts lp_supply amplification =
      some lp) :
    lp = amounts.sum := by
  unfold compute_lp_amount at h
  rw [csum_of_sum_zero old_reserves h0] at h
  simp only [if_pos rfl] at h
  simpa using csum_eq_some amounts 0 lp h

/-- Witness for C7: the all-zero Seed pool `[0,0,0]` with deposit
`[5,7,9]` mints `21 = 5 + 7 + 9`. -/
theorem c7_bootstrap_lp_witness :
    ([0, 0, 0] : List Nat).sum = 0 ∧
    compute_lp_amount [0, 0, 0] [5, 7, 9] [5, 7, 9] 0 1 = some 21 ∧
    (21 : Nat) = ([5, 7, 9] : List Nat).sum :=
  ⟨by simp, by decide,
    c7_bootstrap_lp [0, 0, 0] [5, 7, 9] [5, 7, 9] 0 1 21 (by simp) (by decide)⟩

/-! ### Full withdrawal (C8) -/

theorem withdraw_go_full (min_amounts : List Nat) :
    ∀ (reserves : List Nat) (i : Nat) (amts : List Nat),
      (∀ r ∈ reserves, r < W) →
      withdraw_amounts_go 10000 min_amounts reserves i = some amts →
      amts = reserves := by
  intro reserves
  induction reserves with
  | nil =>
    intro i amts _ h
    simp [withdraw_amounts_go] at h
    simp [h]
  | cons r rest ih =>
    intro i amts hw h
    have hr : r < W := hw r (List.mem_cons_self r rest)
    have hamt : r * 10000 / 10000 % W = r := by
      rw [Nat.mul_div_cancel r (by norm_num)]
      exact Nat.mod_eq_of_lt hr
    unfold withdraw_amounts_go at h
    rw [hamt] at h
    by_cases hcond : i < min_amounts.length ∧ r < min_amounts.getD i 0
    · rw [if_pos hcond] at h
      cases h
    · rw [if_neg hcond] at h
      cases hrec : withdraw_amounts_go 10000 min_amounts rest (i + 1) with
      | none => rw [hrec] at h; cases h
      | some tail =>
        rw [hrec] at h
        have htail : tail = rest :=
          ih (i + 1) tail (fun x hx => hw x (List.mem_cons_of_mem r hx)) hrec
        cases h
        rw [htail]

/-- Claim C8: withdrawing the entire LP supply returns each reserve within
the basis-point rounding error — in fact exactly, since the ratio
`lpSupply × 10000 / lpSupply` is exactly `10000`. -/
theorem c8_full_withdrawal (reserves min_amounts amts : List Nat) (lp_supply : Nat)
    (hs : 0 < lp_supply) (hw : ∀ r ∈ reserves, r < W)
    (h : calculate_withdrawal_amounts reserves lp_supply lp_supply min_amounts =
      some amts) :
    amts = reserves := by
  unfold calculate_withdrawal_amounts at h
  rw [if_neg (by omega)] at h
  have hratio : lp_supply * 10000 / lp_supply = 10000 := by
    rw [Nat.mul_comm]
    exact Nat.mul_div_cancel 10000 hs
  rw [hratio] at h
  exact withdraw_go_full min_amounts reserves 0 amts hw h

/-- Witness for C8: a pool with reserves `[100, 200]` and LP supply `50`,
fully withdrawn, pays out exactly `[100, 200]`. -/
theorem c8_full_withdrawal_witness :
    0 < 50 ∧ (∀ r ∈ ([100, 200] : List Nat), r < W) ∧
    calculate_withdrawal_amounts [100, 200] 50 50 [0, 0] = some [100, 200] ∧
    ([100, 200] : List Nat) = [100, 200] :=
  ⟨by norm_num, by decide, by decide,
    c8_full_withdrawal [100, 200] [0, 0] [100, 200] 50 (by norm_num) (by decide)
      (by decide)⟩

/-! ### Dynamic fee: range and monotonicity (C9) -/

theorem sum_deviation_eq_some :
    ∀ (c t : List Nat) (acc x : Nat),
      sum_deviation c t acc = some x → x = acc + total_dev c t := by
  intro c
  induction c with
  | nil =>
    intro t acc x h
    simp [sum_deviation] at h
    simp [total_dev, h]
  | cons c0 cs ih =>
    intro t acc x h
    cases t with
    | nil =>
      simp [sum_deviation] at h
      simp [total_dev, h]
    | cons t0 ts =>
      unfold sum_deviation at h
      cases hadd : cadd acc (if c0 > t0 then c0 - t0 else t0 - c0) with
      | none => rw [hadd] at h; cases h
      | some acc' =>
        rw [hadd] at h
        obtain ⟨-, hacc'⟩ := cadd_some.mp hadd
        have := ih ts acc' x h
        subst hacc'
        unfold total_dev
        omega

theorem fee_eq_some (current_weights target_weights : List Nat) (f : Nat)
    (h : calculate_dynamic_fee current_weights target_weights = some f) :
    f = fee_of (total_dev current_weights target_weights) := by
  unfold calculate_dynamic_fee at h
  cases hsum : sum_deviation current_weights target_weights 0 with
  | none => rw [hsum] at h; cases h
  | some total =>
    rw [hsum] at h
    have htot : total = total_dev current_weights target_weights := by
      simpa using sum_deviation_eq_some _ _ 0 total hsum
    dsimp only at h
    cases hm : cmul (total / 100) FEE_MULTIPLIER with
    | none => rw [hm] at h; cases h
    | some m =>
      rw [hm] at h
      dsimp only at h
      obtain ⟨-, hmv⟩ := cmul_some.mp hm
      cases hf : cadd BASE_FEE (m / 10) with
      | none => rw [hf] at h; cases h
      | some fee =>
        rw [hf] at h
        dsimp only at h
        obtain ⟨-, hfv⟩ := cadd_some.mp hf
        cases h
        rw [hfv, hmv, htot]
        rfl

theorem fee_of_range (x : Nat) : 1 ≤ fee_of x ∧ fee_of x ≤ 5 := by
  unfold fee_of BASE_FEE MAX_FEE FEE_MULTIPLIER
  constructor
  · exact le_min (Nat.le_add_right 1 _) (by norm_num)
  · exact min_le_right _ _

theorem fee_of_mono {x y : Nat} (h : x ≤ y) : fee_of x ≤ fee_of y := by
  unfold fee_of
  have : x / 100 * FEE_MULTIPLIER / 10 ≤ y / 100 * FEE_MULTIPLIER / 10 :=
    Nat.div_le_div_right (Nat.mul_le_mul_right _ (Nat.div_le_div_right h))
  exact min_le_min (Nat.add_le_add_left this _) (le_refl _)

/-- Claim C9: every fee the dynamic fee model returns lies in `[1, 5]`
(parts per 1000), and the fee is monotone non-decreasing in the total
absolute deviation between current and target weights. -/
theorem c9_fee_range_and_monotone (w t w' t' : List Nat) (f f' : Nat)
    (h : calculate_dynamic_fee w t = some f)
    (h' : calculate_dynamic_fee w' t' = some f') :
    (1 ≤ f ∧ f ≤ 5) ∧ (total_dev w t ≤ total_dev w' t' → f ≤ f') := by
  rw [fee_eq_some w t f h, fee_eq_some w' t' f' h']
  exact ⟨fee_of_range _, fun hd => fee_of_mono hd⟩

/-- Witness for C9: balanced weights give the base fee 1, a fully skewed
pool gives the cap 5, and monotonicity relates them. -/
theorem c9_fee_range_and_monotone_witness :
    calculate_dynamic_fee [5000, 5000] [5000, 5000] = some 1 ∧
    calculate_dynamic_fee [10000, 0] [5000, 5000] = some 5 ∧
    ((1 ≤ 1 ∧ 1 ≤ 5) ∧
      (total_dev [5000, 5000] [5000, 5000] ≤ total_dev [10000, 0] [5000, 5000] →
        1 ≤ 5)) :=
  ⟨by decide, by decide,
    c9_fee_range_and_monotone [5000, 5000] [5000, 5000] [10000, 0] [5000, 5000] 1 5
      (by decide) (by decide)⟩

/-! ### Invariant solver on equal reserves (C3) -/

theorem accum_reserves_replicate (r : Nat) (hr : 0 < r) :
    ∀ (k s p : Nat), s + k * r < W → p * r ^ k < W →
      accum_reserves (List.replicate k r) s p = some (false, s + k * r, p * r ^ k) := by
  intro k
  induction k with
  | zero =>
    intro s p _ _
    simp [accum_reserves]
  | succ k ih =>
    intro s p hs hp
    have hmul : (k + 1) * r = k * r + r := Nat.succ_mul k r
    have hrk : 1 ≤ r ^ k := Nat.one_le_pow k r hr
    rw [List.replicate_succ]
    unfold accum_reserves
    rw [if_neg (by omega : ¬ r = 0)]
    rw [cadd_some.mpr ⟨by omega, rfl⟩]
    dsimp only
    have hpr : p * r ≤ p * r ^ (k + 1) := by
      apply Nat.mul_le_mul_left
      calc r = 1 * r := (Nat.one_mul r).symm
        _ ≤ r ^ k * r := Nat.mul_le_mul_right r hrk
        _ = r ^ (k + 1) := (pow_succ r k).symm
    rw [cmul_some.mpr ⟨lt_of_le_of_lt hpr hp, rfl⟩]
    dsimp only
    have e2 : p * r * r ^ k = p * r ^ (k + 1) := by ring
    rw [ih (s + r) (p * r) (by omega) (by rw [e2]; exact hp)]
    rw [e2]
    have e1 : s + r + k * r = s + (k + 1) * r := by omega
    rw [e1]

theorem d_product_fold_replicate (r n s : Nat) (hs : 0 < s) (hrn : r * n = s)
    (hss : s * s < W) :
    ∀ k, d_product_fold n s (List.replicate k r) s = some s := by
  have hsW : s < W := lt_of_le_of_lt (Nat.le_mul_of_pos_left s hs) hss
  intro k
  induction k with
  | zero => rfl
  | succ k ih =>
    rw [List.replicate_succ]
    unfold d_product_fold
    rw [cmul_some.mpr ⟨hss, rfl⟩]
    dsimp only
    rw [cmul_some.mpr ⟨by rw [hrn]; exact hsW, hrn.symm⟩]
    dsimp only
    rw [cdiv_some.mpr ⟨by omega, (Nat.mul_div_cancel s hs).symm⟩]
    dsimp only
    exact ih

theorem newton_step_replicate (r n ann s : Nat) (k : Nat)
    (hann : 1 ≤ ann) (hs : 0 < s) (hrn : r * n = s)
    (hbig : (ann + n) * s * s < W) :
    newton_step (List.replicate k r) n ann s s = some s := by
  have hBpos : 0 < ann + n := by omega
  have hBsW : (ann + n) * s < W :=
    lt_of_le_of_lt (Nat.le_mul_of_pos_right ((ann + n) * s) hs) hbig
  have hssW : s * s < W := by
    have : s * s ≤ (ann + n) * s * s := by
      rw [Nat.mul_assoc]
      exact Nat.le_mul_of_pos_left (s * s) hBpos
    omega
  have key : ann * s + s * n = (ann + n) * s := by ring
  have keyden : (ann - 1) * s + (n + 1) * s = (ann + n) * s := by
    rw [← Nat.add_mul]
    congr 1
    omega
  unfold newton_step
  rw [d_product_fold_replicate r n s hs hrn hssW k]
  dsimp only
  rw [cmul_some.mpr ⟨by
    have : ann * s ≤ (ann + n) * s := Nat.mul_le_mul_right s (by omega)
    omega, rfl⟩]
  dsimp only
  rw [cmul_some.mpr ⟨by
    have : s * n ≤ (ann + n) * s := by
      rw [Nat.mul_comm s n]
      exact Nat.mul_le_mul_right s (by omega)
    omega, rfl⟩]
  dsimp only
  rw [cadd_some.mpr ⟨by omega, rfl⟩]
  dsimp only
  rw [cmul_some.mpr ⟨by rw [key]; exact hbig, rfl⟩]
  dsimp only
  rw [csub_some.mpr ⟨hann, rfl⟩]
  dsimp only
  rw [cmul_some.mpr ⟨by
    have : (ann - 1) * s ≤ (ann + n) * s := Nat.mul_le_mul_right s (by omega)
    omega, rfl⟩]
  dsimp only
  rw [cadd_some.mpr ⟨by
    have : n + 1 ≤ (ann + n) * s := le_trans (by omega)
      (Nat.le_mul_of_pos_right (ann + n) hs)
    omega, rfl⟩]
  dsimp only
  rw [cmul_some.mpr ⟨by
    have : (n + 1) * s ≤ (ann + n) * s := Nat.mul_le_mul_right s (by omega)
    omega, rfl⟩]
  dsimp only
  rw [cadd_some.mpr ⟨by rw [keyden]; exact hBsW, rfl⟩]
  dsimp only
  rw [keyden, key]
  exact cdiv_some.mpr ⟨by positivity, (Nat.mul_div_cancel_left s (by positivity)).symm⟩

theorem newton_loop_replicate (r n ann s : Nat) (k fuel : Nat)
    (h : newton_step (List.replicate k r) n ann s s = some s) :
    newton_loop (List.replicate k r) n ann s (fuel + 1) s = some s := by
  unfold newton_loop
  rw [h]
  simp

/-- Claim C3 (amended): for every `n ≥ 1`, `r ≥ 1`, `A ≥ 1` whose
intermediate arithmetic stays within `u64`
(`r ^ n < 2 ^ 64` for the scan product and
`(A n^n + n) (n r)² < 2 ^ 64` for the Newton update),
the invariant of `n` copies of `r` is exactly `n × r`. -/
theorem c3_equal_reserves_amended (n r A : Nat) (hn : 1 ≤ n) (hr : 1 ≤ r)
    (hA : 1 ≤ A) (hprod : r ^ n < W)
    (hbig : (A * n ^ n + n) * (n * r) * (n * r) < W) :
    calculate_invariant (List.replicate n r) A = some (n * r) := by
  have hs : 0 < n * r := Nat.mul_pos hn hr
  have hann : 1 ≤ A * n ^ n := Nat.mul_pos hA (Nat.pos_pow_of_pos n hn)
  have hB : 0 < A * n ^ n + n := by omega
  have hBW : A * n ^ n + n < W := by
    have h1 : A * n ^ n + n ≤ (A * n ^ n + n) * (n * r) :=
      Nat.le_mul_of_pos_right (A * n ^ n + n) hs
    have h2 : (A * n ^ n + n) * (n * r) ≤ (A * n ^ n + n) * (n * r) * (n * r) :=
      Nat.le_mul_of_pos_right _ hs
    omega
  have hnnW : n ^ n < W := by
    have : n ^ n ≤ A * n ^ n := Nat.le_mul_of_pos_left (n ^ n) hA
    omega
  unfold calculate_invariant
  rw [if_neg (by
    cases n with
    | zero => omega
    | succ m => simp [List.replicate_succ])]
  rw [List.length_replicate]
  rw [accum_reserves_replicate r hr n 0 1
    (by
      have h1 : n * r ≤ (A * n ^ n + n) * (n * r) :=
        Nat.le_mul_of_pos_left (n * r) hB
      have h2 : (A * n ^ n + n) * (n * r) ≤ (A * n ^ n + n) * (n * r) * (n * r) :=
        Nat.le_mul_of_pos_right _ hs
      omega)
    (by simpa using hprod)]
  dsimp only
  rw [if_neg (by simp; omega)]
  rw [show chk (n ^ n) = some (n ^ n) from chk_some.mpr ⟨hnnW, rfl⟩]
  dsimp only
  rw [cmul_some.mpr ⟨by omega, rfl⟩]
  dsimp only
  simp only [Nat.zero_add]
  show newton_loop (List.replicate n r) n (A * n ^ n) (n * r) (254 + 1) (n * r) =
    some (n * r)
  exact newton_loop_replicate r n (A * n ^ n) (n * r) n 254
    (newton_step_replicate r n (A * n ^ n) (n * r) n hann hs (Nat.mul_comm r n) hbig)

/-- Witness for the amended C3: three copies of `1000` with amplification
`100` give invariant exactly `3000`. -/
theorem c3_equal_reserves_amended_witness :
    (1 ≤ 3 ∧ 1 ≤ 1000 ∧ 1 ≤ 100 ∧ 1000 ^ 3 < W ∧
      (100 * 3 ^ 3 + 3) * (3 * 1000) * (3 * 1000) < W) ∧
    calculate_invariant (List.replicate 3 1000) 100 = some (3 * 1000) :=
  ⟨by norm_num [W],
    c3_equal_reserves_amended 3 1000 100 (by norm_num) (by norm_num) (by norm_num)
      (by norm_num [W]) (by norm_num [W])⟩

/-- Counterexample to C3 as stated: two copies of `2 ^ 32` are positive
reserves with a representable claimed result `2 × 2 ^ 32`, yet the solver
aborts (`none`) because the scan's unused running product
`2 ^ 32 × 2 ^ 32 = 2 ^ 64` overflows `u64`. -/
theorem c3_equal_reserves_counterexample :
    calculate_invariant (List.replicate 2 (2 ^ 32)) 1 ≠ some (2 * 2 ^ 32) ∧
    calculate_invariant (List.replicate 2 (2 ^ 32)) 1 = none := by
  constructor <;> decide

/-! ### Swap output bound (C1) -/

theorem csub_le {a b y : Nat} (h : csub a b = some y) : y ≤ a := by
  obtain ⟨-, hy⟩ := csub_some.mp h
  omega

/-- Claim C1 (amended): whenever the swap output calculator returns an
amount, that amount is at most `reserveOut` (it can equal it); an input
for which `reserveOut − newReserveOut` would be negative aborts the
computation instead of returning. -/
theorem c1_output_at_most_reserve (x_amount x_reserve y_reserve fee amplification
    y : Nat)
    (h : calculate_output_amount x_amount x_reserve y_reserve fee amplification =
      some y) :
    y ≤ y_reserve := by
  unfold calculate_output_amount at h
  split at h
  · cases h
  · repeat' split at h
    all_goals first
      | cases h
      | exact csub_le h

/-- Witness for the amended C1 at a concrete successful swap. -/
theorem c1_output_at_most_reserve_witness :
    calculate_output_amount 0 1 1 0 1 = some 1 ∧ (1 : Nat) ≤ 1 :=
  ⟨by decide, c1_output_at_most_reserve 0 1 1 0 1 1 (by decide)⟩

/-- Counterexample to C1 as stated: with `amountIn = 0`, both reserves `1`,
fee `0` and amplification `1`, the calculator returns `some 1`, an output
exactly equal to `reserveOut` — not strictly less, and not a failure. -/
theorem c1_output_counterexample :
    calculate_output_amount 0 1 1 0 1 = some 1 ∧ ¬ ((1 : Nat) < 1) := by
  exact ⟨by decide, by omega⟩

/-! ### The Newton update uses the pre-fold value (C2) -/

/-- Claim C2 is false of the code: at reserves `[100, 200]` with
amplification `10` (so `n = 2`, `Ann = 40`, `sum = 300`), the code's
iteration feeds `D_P = D` into the update and is a fixed point at the
plain sum `300`, while the iteration the claim describes (folded `D_P`)
moves to `299`; accordingly the two solvers return different invariants. -/
theorem c2_newton_update_divergence :
    newton_step [100, 200] 2 40 300 300 = some 300 ∧
    newton_step_spec [100, 200] 2 40 300 300 = some 299 ∧
    calculate_invariant [100, 200] 10 = some 300 ∧
    calculate_invariant_spec [100, 200] 10 = some 299 ∧
    (300 : Nat) ≠ 299 := by
  exact ⟨by decide, by decide, by decide, by decide, by omega⟩

/-! ### Deposit position bounds (C5) -/

/-- Counterexample to C5: a deposit with concentration `0` stores bounds
`(0, 1000)`, whereas the §4.6 bounds at concentration `0` collapse to
`(centerPrice, centerPrice)` — shown here at the parity center `1000`. -/
theorem c5_deposit_bounds_counterexample :
    deposit_update_position ⟨0, 0, 0, 0, 0, false, 0, 0⟩ 10 0 0 =
      some ⟨0, 0, 10, 0, 1000, true, 0, 0⟩ ∧
    calculate_position_bounds 1000 0 = some (1000, 1000) ∧
    ¬ ((0 : Nat) = 1000 ∧ (1000 : Nat) = 1000) := by
  exact ⟨by decide, by decide, by omega⟩

/-- Claim C5 (amended): after every successful deposit with concentration
parameter `c`, the stored bounds are `(c saturating− 1000, c + 1000)`:
the handler uses `c` itself as the center with a fixed half-range `1000`,
which coincides with the §4.6 bounds evaluated at `centerPrice = c` and
concentration `200` whenever `c + 1000` fits in `u64`. -/
theorem c5_deposit_bounds_amended (pos : UserPosition) (lp c : Nat) (t : Int)
    (p : UserPosition) (h : deposit_update_position pos lp c t = some p)
    (hc : c + 1000 < W) :
    calculate_position_bounds c 200 = some (p.min_price, p.max_price) := by
  unfold deposit_update_position at h
  cases hadd : cadd pos.lp_amount lp with
  | none => rw [hadd] at h; cases h
  | some lp' =>
    rw [hadd] at h
    dsimp only at h
    cases h
    unfold calculate_position_bounds
    rw [show cmul 200 5 = some 1000 from cmul_some.mpr ⟨by norm_num [W], rfl⟩]
    dsimp only
    rw [cadd_some.mpr ⟨hc, rfl⟩]
    dsimp only
    have hmin : min (c + 1000) (W - 1) = c + 1000 := by
      apply Nat.min_eq_left
      omega
    rw [hmin]

/-- Witness for the amended C5 at concentration `500`. -/
theorem c5_deposit_bounds_amended_witness :
    deposit_update_position ⟨1, 2, 3, 4, 5, false, 6, 7⟩ 10 500 8 =
      some ⟨1, 2, 13, 0, 1500, true, 6, 8⟩ ∧ 500 + 1000 < W ∧
    calculate_position_bounds 500 200 = some (0, 1500) := by
  refine ⟨by decide, by norm_num [W], ?_⟩
  have := c5_deposit_bounds_amended ⟨1, 2, 3, 4, 5, false, 6, 7⟩ 10 500 8
    ⟨1, 2, 13, 0, 1500, true, 6, 8⟩ (by decide) (by norm_num [W])
  simpa using this

/-! ### Position activity flag (C6) -/

/-- Counterexample to C6: depositing `0` freshly minted LP into an
inactive empty position leaves `lp_amount = 0` but unconditionally sets
`is_active = true`, so `isActive == (lpAmount > 0)` fails after this
deposit update. -/
theorem c6_active_flag_counterexample :
    deposit_update_position ⟨0, 0, 0, 0, 0, false, 0, 0⟩ 0 7 0 =
      some ⟨0, 0, 0, 0, 1007, true, 0, 0⟩ ∧
    ¬ ((⟨0, 0, 0, 0, 1007, true, 0, 0⟩ : UserPosition).is_active = true ↔
        0 < (⟨0, 0, 0, 0, 1007, true, 0, 0⟩ : UserPosition).lp_amount) := by
  exact ⟨by decide, by decide⟩

/-- Claim C6 (amended): after a withdraw update of an active position the
equivalence `isActive ↔ lpAmount > 0` holds; after a deposit update
`isActive` is unconditionally `true`, so the equivalence holds exactly
when the resulting `lpAmount` is positive. -/
theorem c6_active_iff_positive_amended (pos : UserPosition) (lp lpd c : Nat)
    (t : Int) (p : UserPosition) :
    (pos.is_active = true →
      ((withdraw_update_position pos lp t).is_active = true ↔
        0 < (withdraw_update_position pos lp t).lp_amount)) ∧
    (deposit_update_position pos lpd c t = some p →
      p.is_active = true ∧
        ((p.is_active = true ↔ 0 < p.lp_amount) ↔ 0 < p.lp_amount)) := by
  constructor
  · intro hact
    unfold withdraw_update_position
    dsimp only
    by_cases h0 : pos.lp_amount - lp = 0
    · simp [h0]
    · simp [h0, hact]
      omega
  · intro h
    unfold deposit_update_position at h
    cases hadd : cadd pos.lp_amount lpd with
    | none => rw [hadd] at h; cases h
    | some lp' =>
      rw [hadd] at h
      dsimp only at h
      cases h
      refine ⟨rfl, ?_⟩
      dsimp only
      constructor
      · intro hiff
        exact hiff.mp rfl
      · intro hpos
        exact ⟨fun _ => hpos, fun _ => rfl⟩

/-- Witness for the amended C6: full withdrawal deactivates, and a deposit
that mints positive LP is active with positive balance. -/
theorem c6_active_iff_positive_witness :
    ((withdraw_update_position ⟨0, 0, 5, 0, 0, true, 0, 0⟩ 5 0).is_active = true ↔
      0 < (withdraw_update_position ⟨0, 0, 5, 0, 0, true, 0, 0⟩ 5 0).lp_amount) ∧
    (⟨0, 0, 8, 0, 1000, true, 0, 0⟩ : UserPosition).is_active = true := by
  refine ⟨?_, ?_⟩
  · exact (c6_active_iff_positive_amended ⟨0, 0, 5, 0, 0, true, 0, 0⟩ 5 3 0 0
      ⟨0, 0, 8, 0, 1000, true, 0, 0⟩).1 rfl
  · exact ((c6_active_iff_positive_amended ⟨0, 0, 5, 0, 0, true, 0, 0⟩ 5 3 0 0
      ⟨0, 0, 8, 0, 1000, true, 0, 0⟩).2 (by decide)).1

/-! ### Swap mint resolution (C10) -/

theorem find_mint_index_none_iff (l : List Nat) (m : Nat) :
    find_mint_index l m = none ↔ m ∉ l := by
  induction l with
  | nil => simp [find_mint_index]
  | cons a rest ih =>
    unfold find_mint_index
    by_cases ha : a = m
    · simp [ha]
    · have ham : m ≠ a := fun hma => ha hma.symm
      rw [if_neg ha, Option.map_eq_none', ih]
      simp [List.mem_cons, ham]

theorem swap_resolve_none_iff (token_mints : List Nat) (mint_in mint_out : Nat) :
    swap_resolve token_mints mint_in mint_out = none ↔
      (mint_in ∉ token_mints ∨ mint_out ∉ token_mints) := by
  unfold swap_resolve
  cases h1 : find_mint_index token_mints mint_in with
  | none =>
    exact ⟨fun _ => Or.inl ((find_mint_index_none_iff _ _).mp h1), fun _ => rfl⟩
  | some i =>
    cases h2 : find_mint_index token_mints mint_out with
    | none =>
      exact ⟨fun _ => Or.inr ((find_mint_index_none_iff _ _).mp h2), fun _ => rfl⟩
    | some j =>
      constructor
      · intro hcontra
        cases hcontra
      · rintro (hin | hout)
        · rw [(find_mint_index_none_iff _ _).mpr hin] at h1
          cases h1
        · rw [(find_mint_index_none_iff _ _).mpr hout] at h2
          cases h2

/-- Claim C10: the swap handler's mint resolution fails (InvalidTokenMint)
exactly when the input or output mint is absent from the pool's mint list;
and concretely, a swap with `token_mint_in = token_mint_out = 7` against
pool mints `[7, 8]` is not rejected — both lookups resolve to reserve
index `0`, the full pipeline succeeds with output `1`, and the aliasing
update leaves reserves `[0, 1]`. -/
theorem c10_swap_mint_resolution :
    (∀ (token_mints : List Nat) (mint_in mint_out : Nat),
      swap_resolve token_mints mint_in mint_out = none ↔
        (mint_in ∉ token_mints ∨ mint_out ∉ token_mints)) ∧
    swap_compute [7, 8] [1, 1] [5000, 5000] 1 0 0 7 7 = some (0, 0, 1, [0, 1]) :=
  ⟨swap_resolve_none_iff, by decide⟩

end Equilibrium
